import Mathlib

/-!
Verification of `prep_asr_data.py` (Zambezi Voice ASR/ST data preparation).

The script is sequential ETL glue: a `ZambeziVoice` dataset class loads a
per-split TSV table, keeps the rows whose audio file can be probed, and a
`process` function extracts one feature file per utterance, zips them,
builds per-split manifest tables and trains a vocabulary from the train
transcripts.  We embed the data flow shallowly: the filesystem is a record
of pure functions (table contents, audio probe outcome, audio load), the
pandas table is a list of rows restricted to the three used columns, the
external collaborators (`create_zip`/`get_zip_manifest`,
`filter_manifest_df`) are modelled from their contracts in the spec, and
every fallible step returns `Option`.
-/

/-- One row of a split table after the column restriction
`df[["audio_id", "sentence", "speaker_name"]]` performed in
`ZambeziVoice.__init__`. -/
structure Row where
  audio_id : String
  sentence : String
  speaker_name : String
deriving DecidableEq, Repr

/-- The filesystem as seen by one run.  `tsv p` is the parsed table at path
`p` (`none` models `assert path.is_file()` failing), `probeOk p` tells
whether `torchaudio.info(p)` succeeds (`false` models a raised
`RuntimeError`), `loadAudio p` is the `(waveform, sample_rate)` pair
returned by `torchaudio.load(p)`. -/
structure FS where
  tsv : String → Option (List Row)
  probeOk : String → Bool
  loadAudio : String → List Int × Nat

/-- `MANIFEST_COLUMNS` from the source. -/
def MANIFEST_COLUMNS : List String := ["id", "audio", "n_frames", "tgt_text", "speaker"]

/-- `ZambeziVoice.VERSIONS = {2}`. -/
def VERSIONS : List Nat := [2]

/-- `ZambeziVoice.SPLITS`. -/
def SPLITS : List String := ["train", "dev", "test"]

/-- `ZambeziVoice.XX_EN_LANGUAGES` (a Python dict keyed by version; it is
only ever read after `version ∈ VERSIONS` has been checked, so the `[]`
default for other keys is unreachable). -/
def XX_EN_LANGUAGES (version : Nat) : List String :=
  if version = 1 then ["nya", "toi", "loz"]
  else if version = 2 then ["nya", "toi", "loz"]
  else []

/-- `ZambeziVoice.EN_XX_LANGUAGES`. -/
def EN_XX_LANGUAGES (version : Nat) : List String :=
  if version = 1 then []
  else if version = 2 then ["nya", "toi", "loz"]
  else []

/-- The pattern removed from `audio_id`: the source runs
`data["audio_id"].replace(".wav", "")`. -/
def wavPat : List Char := ['.', 'w', 'a', 'v']

/-- Python `str.replace(".wav", "")`: remove every non-overlapping
occurrence of `".wav"`, scanning left to right. -/
def stripWav : List Char → List Char
  | '.' :: 'w' :: 'a' :: 'v' :: rest => stripWav rest
  | c :: rest => c :: stripWav rest
  | [] => []

/-- `audio_id.replace(".wav", "")` on strings. -/
def stripWavStr (s : String) : String := ⟨stripWav s.data⟩

/-- The utterance id `_id` computed in `ZambeziVoice.__getitem__`. -/
def uttId (e : Row) : String := stripWavStr e.audio_id

/-- Path of a split table: `self.root / f"{split}.tsv"`. -/
def tsvPath (root split : String) : String := root ++ "/" ++ split ++ ".tsv"

/-- Path of an audio file: `self.root / "audio" / audio_id`. -/
def audioPath (root audio_id : String) : String := root ++ "/audio/" ++ audio_id

/-- Python `s.startswith(pre)`. -/
def startswith (s pre : String) : Bool := pre.data.isPrefixOf s.data

/-- The reindexing step of `ZambeziVoice.__init__`:
`[v for k, v in sorted(df.to_dict(orient="index").items(), key=lambda x: x[0])]`.
`to_dict(orient="index")` keys the rows by their table index (0, 1, …),
and Python's `sorted` is a stable sort by that key. -/
def sortRows (tbl : List Row) : List Row :=
  ((List.insertionSort (fun a b : Nat × Row => a.1 ≤ b.1) tbl.enum).map Prod.snd)

/-- The `assert` block at the top of `ZambeziVoice.__init__`:
`version in VERSIONS and split in SPLITS`, and when a target language is
given, `"en" in {source_language, target_language}` plus membership of the
non-`"en"` side in the language table for `version`. -/
def validArgs (split source_language : String) (target_language : Option String)
    (version : Nat) : Bool :=
  VERSIONS.contains version && SPLITS.contains split &&
    match target_language with
    | none => true
    | some t =>
        ("en" == source_language || "en" == t) &&
          (if source_language == "en" then (EN_XX_LANGUAGES version).contains t
           else (XX_EN_LANGUAGES version).contains source_language)

/-- `ZambeziVoice.__init__`: check the argument preconditions, load the
split table (the three split branches of the source are identical), sort
the rows by original table index, and keep exactly the rows whose audio
file probes successfully (`torchaudio.info` inside `try/except
RuntimeError: pass`).  The result is `self.data`; `none` models an
aborting construction. -/
def ZambeziVoice.init (fs : FS) (root split source_language : String)
    (target_language : Option String) (version : Nat) : Option (List Row) :=
  if validArgs split source_language target_language version then
    match fs.tsv (tsvPath root split) with
    | none => none
    | some df =>
        let data := sortRows df
        some (data.filter (fun e => fs.probeOk (audioPath root e.audio_id)))
  else none

/-- `ZambeziVoice.__len__`. -/
def ZambeziVoice.len (data : List Row) : Nat := data.length

/-- The tuple returned by `ZambeziVoice.__getitem__`:
`(waveform, sample_rate, sentence, speaker_id, _id)`. -/
structure Item where
  waveform : List Int
  sample_rate : Nat
  sentence : String
  speaker_id : String
  sample_id : String
deriving DecidableEq, Repr

/-- Body of `ZambeziVoice.__getitem__` for one row. -/
def itemOf (fs : FS) (root : String) (data : Row) : Item :=
  let wr := fs.loadAudio (audioPath root data.audio_id)
  { waveform := wr.1
    sample_rate := wr.2
    sentence := data.sentence
    speaker_id := data.speaker_name
    sample_id := stripWavStr data.audio_id }

/-- `ZambeziVoice.__getitem__`: `self.data[n]` (out of range models the
`IndexError`). -/
def ZambeziVoice.getitem (fs : FS) (root : String) (data : List Row) (n : Nat) :
    Option Item :=
  (data[n]?).map (itemOf fs root)

/-- Iterating the dataset (`for … in tqdm(dataset)`) yields
`__getitem__(0), …, __getitem__(len - 1)`. -/
def ZambeziVoice.items (fs : FS) (root : String) (data : List Row) : List Item :=
  data.map (itemOf fs root)

/-- `task` in `process`: `f"asr_{src}"`, overwritten with
`f"st_{src}_{tgt}"` when `--tgt-lang` is supplied. -/
def task (src_lang : String) (tgt_lang : Option String) : String :=
  match tgt_lang with
  | none => "asr_" ++ src_lang
  | some t => "st_" ++ src_lang ++ "_" ++ t

/-- `vocab_size_str = "" if args.vocab_type == "char" else str(args.vocab_size)`. -/
def vocab_size_str (vocab_type : String) (vocab_size : Int) : String :=
  if vocab_type == "char" then "" else toString vocab_size

/-- `spm_filename_prefix = f"spm_{args.vocab_type}{vocab_size_str}_{task}"`
(renamed here because of lexical constraints on Lean identifiers). -/
def spm_filename_base (vocab_type : String) (vocab_size : Int) (task : String) : String :=
  "spm_" ++ vocab_type ++ vocab_size_str vocab_type vocab_size ++ "_" ++ task

/-- Path the per-split manifest is persisted to:
`root / f"{split}_{task}.tsv"`. -/
def manifestSavePath (root split task : String) : String :=
  root ++ "/" ++ split ++ "_" ++ task ++ ".tsv"

/-- `f"config_{task}.yaml"`. -/
def configFilename (task : String) : String := "config_" ++ task ++ ".yaml"

/-- Modelled from the spec (§4.3 Archival Stage): the data `create_zip` /
`get_zip_manifest` attach to an archived feature file — an
archive-internal locator and a frame count per utterance id.  Both
functions live in `examples.speech_to_text.data_utils`, outside this
repository. -/
structure ZipInfo where
  pointerOf : String → String
  framesOf : String → Nat

/-- The pair of dictionaries `audio_paths, audio_lengths` returned by
`get_zip_manifest`; a missing key models the `KeyError` a Python dict
lookup raises. -/
structure ZipManifest where
  paths : String → Option String
  lengths : String → Option Nat

/-- Modelled from the spec (§4.3): after `create_zip(feature_root, zip_path)`
the archive holds exactly the feature files staged under `feature_root`,
and `get_zip_manifest` keys its two dictionaries by the utterance ids of
those files. -/
def zipManifestOf (zi : ZipInfo) (ids : List String) : ZipManifest :=
  { paths := fun u => if ids.contains u then some (zi.pointerOf u) else none
    lengths := fun u => if ids.contains u then some (zi.framesOf u) else none }

/-- The feature-extraction pass of `process`: for each split in
`SPLITS`, construct the dataset and write one feature file
`feature_root / f"{utt_id}.npy"` per iterated item.  The result is the
list of staged utterance ids in write order; `none` models an aborting
dataset construction. -/
def featureIds (fs : FS) (root src_lang : String) (tgt_lang : Option String) :
    Option (List String) :=
  (SPLITS.mapM (fun sp => ZambeziVoice.init fs root sp src_lang tgt_lang 2)).map
    (fun dss => (dss.map (fun rows => rows.map uttId)).flatten)

/-- One row of the generated TSV manifest (`MANIFEST_COLUMNS`). -/
structure ManifestRow where
  id : String
  audio : String
  n_frames : Nat
  tgt_text : String
  speaker : String
deriving DecidableEq, Repr

/-- One iteration of the manifest loop in `process`: append `utt_id`,
`audio_paths[utt_id]`, `audio_lengths[utt_id]`, `src_utt`, `speaker_id`;
a failing dictionary lookup (`KeyError`) aborts. -/
def manifestRowOf (zm : ZipManifest) (it : Item) : Option ManifestRow :=
  match zm.paths it.sample_id, zm.lengths it.sample_id with
  | some p, some nf =>
      some { id := it.sample_id, audio := p, n_frames := nf,
             tgt_text := it.sentence, speaker := it.speaker_id }
  | _, _ => none

/-- The manifest table for one split, in dataset iteration order. -/
def manifestOf (zm : ZipManifest) (items : List Item) : Option (List ManifestRow) :=
  items.mapM (manifestRowOf zm)

/-- Modelled from the spec (§4.4 Manifest Builder): `filter_manifest_df`
(external, from `examples.speech_to_text.data_utils`) drops training
rows failing a row-local acceptance predicate and passes non-training
splits through unchanged. -/
def filter_manifest_df (keep : ManifestRow → Bool) (df : List ManifestRow)
    (is_train_split : Bool) : List ManifestRow :=
  if is_train_split then df.filter keep else df

/-- What one iteration of the per-split manifest loop of `process`
produces: the in-order manifest rows, the filtered table passed to
`save_df_to_tsv`, the transcripts extended onto `train_text`, and the
path the table is saved at. -/
structure SplitOut where
  split : String
  manifest : List ManifestRow
  saved : List ManifestRow
  text_contrib : List String
  tsv_path : String
deriving DecidableEq, Repr

/-- One iteration of the manifest loop of `process` for split `sp`:
re-construct the dataset, build the manifest rows, extend `train_text`
when `split.startswith("train")` (this happens before
`filter_manifest_df`), filter, and save. -/
def processSplit (fs : FS) (root src_lang : String) (tgt_lang : Option String)
    (zm : ZipManifest) (keep : ManifestRow → Bool) (sp : String) : Option SplitOut :=
  match ZambeziVoice.init fs root sp src_lang tgt_lang 2 with
  | none => none
  | some data =>
      match manifestOf zm (ZambeziVoice.items fs root data) with
      | none => none
      | some m =>
          let is_train_split := startswith sp "train"
          some { split := sp
                 manifest := m
                 saved := filter_manifest_df keep m is_train_split
                 text_contrib := if is_train_split then m.map ManifestRow.tgt_text else []
                 tsv_path := manifestSavePath root sp (task src_lang tgt_lang) }

/-- The accumulated `train_text` after the manifest loop. -/
def train_text (outs : List SplitOut) : List String :=
  (outs.map SplitOut.text_contrib).flatten

/-- A concrete three-row train table used to evaluate the development on
closed inputs. -/
def tblW : List Row :=
  [⟨"a.wav", "moni", "spk1"⟩, ⟨"b.wav", "bwanji", "spk2"⟩, ⟨"c.wav", "zikomo", "spk3"⟩]

/-- A concrete filesystem: train table `tblW`, one-row dev table, empty
test table, every audio file probeable. -/
def fsW : FS :=
  { tsv := fun p =>
      if p == "/data/nya/train.tsv" then some tblW
      else if p == "/data/nya/dev.tsv" then some [⟨"d.wav", "dd", "spk4"⟩]
      else if p == "/data/nya/test.tsv" then some []
      else none
    probeOk := fun _ => true
    loadAudio := fun _ => ([0], 16000) }

/-- A train table holding two rows with distinct `audio_id` values
(`"a"` and `"a.wav"`) that collide after `.replace(".wav", "")`. -/
def tblClash : List Row := [⟨"a", "s1", "spk1"⟩, ⟨"a.wav", "s2", "spk2"⟩]

/-- A filesystem serving `tblClash` as the train table. -/
def fsClash : FS :=
  { tsv := fun p => if p == "/data/nya/train.tsv" then some tblClash else none
    probeOk := fun _ => true
    loadAudio := fun _ => ([0], 16000) }

/-- Concrete archive-internal locators and frame counts for witnesses. -/
def ziW : ZipInfo := ⟨fun u => "fbank80.zip:" ++ u, fun _ => 42⟩

/-- The zip manifest produced from `ziW` over the ids staged by the
feature-extraction pass on `fsW`. -/
def zmW : ZipManifest := zipManifestOf ziW ["a", "b", "c", "d"]

/-- The expected outcome of the train-split manifest iteration on `fsW`
with `zmW` and an all-accepting training filter. -/
def outTrainW : SplitOut :=
  { split := "train"
    manifest := [⟨"a", "fbank80.zip:a", 42, "moni", "spk1"⟩,
                 ⟨"b", "fbank80.zip:b", 42, "bwanji", "spk2"⟩,
                 ⟨"c", "fbank80.zip:c", 42, "zikomo", "spk3"⟩]
    saved := [⟨"a", "fbank80.zip:a", 42, "moni", "spk1"⟩,
              ⟨"b", "fbank80.zip:b", 42, "bwanji", "spk2"⟩,
              ⟨"c", "fbank80.zip:c", 42, "zikomo", "spk3"⟩]
    text_contrib := ["moni", "bwanji", "zikomo"]
    tsv_path := "/data/nya/train_asr_nya.tsv" }

/-- A filesystem agreeing with `fsW` on tables and probe results but not
on audio contents (used for the determinism theorem's witness). -/
def fsW2 : FS :=
  { tsv := fsW.tsv
    probeOk := fun _ => true
    loadAudio := fun _ => ([7, 7], 8000) }

/-- A filesystem whose second train row fails the audio probe. -/
def fsDrop : FS :=
  { tsv := fsW.tsv
    probeOk := fun p => !(p == "/data/nya/audio/b.wav")
    loadAudio := fun _ => ([0], 16000) }

/-! ## Helper lemmas -/

theorem stripWav_cons (c : Char) (rest : List Char) (h : ¬ wavPat <+: (c :: rest)) :
    stripWav (c :: rest) = c :: stripWav rest := by
  rw [stripWav.eq_def]
  split
  · rename_i rest' heq
    refine absurd ?_ h
    rw [heq]
    exact ⟨rest', rfl⟩
  · rename_i c' rest' heq
    injection heq with hc hr
    subst hc; subst hr
    rfl
  · rename_i heq
    exact absurd heq (by simp)

theorem pat_prefix_append (s : List Char) (hs : s ≠ []) (hp : wavPat <+: s ++ wavPat) :
    wavPat <:+: s := by
  rcases s with _ | ⟨a, _ | ⟨b, _ | ⟨c, _ | ⟨d, t⟩⟩⟩⟩
  · exact absurd rfl hs
  · obtain ⟨u, hu⟩ := hp
    simp only [wavPat, List.cons_append, List.nil_append] at hu
    injection hu with h1 hu; injection hu with h2 hu
    exact absurd h2 (by decide)
  · obtain ⟨u, hu⟩ := hp
    simp only [wavPat, List.cons_append, List.nil_append] at hu
    injection hu with h1 hu; injection hu with h2 hu; injection hu with h3 hu
    exact absurd h3 (by decide)
  · obtain ⟨u, hu⟩ := hp
    simp only [wavPat, List.cons_append, List.nil_append] at hu
    injection hu with h1 hu; injection hu with h2 hu; injection hu with h3 hu
    injection hu with h4 hu
    exact absurd h4 (by decide)
  · obtain ⟨u, hu⟩ := hp
    simp only [wavPat, List.cons_append, List.nil_append] at hu
    injection hu with h1 hu; injection hu with h2 hu; injection hu with h3 hu
    injection hu with h4 hu
    subst h1; subst h2; subst h3; subst h4
    exact List.IsPrefix.isInfix ⟨t, rfl⟩

/-- On a string that ends in `".wav"` and contains the pattern nowhere
else, `.replace(".wav", "")` removes exactly the trailing extension. -/
theorem stripWav_append (s : List Char) (h : ¬ wavPat <:+: s) :
    stripWav (s ++ wavPat) = s := by
  induction s with
  | nil => rfl
  | cons c s' ih =>
      rw [List.cons_append, stripWav_cons]
      · rw [ih (fun hc => h (List.infix_cons hc))]
      · intro hp
        exact h (pat_prefix_append (c :: s') (by simp) (by rwa [List.cons_append]))

/-- `sorted(df.to_dict(orient="index").items(), key=lambda x: x[0])` is the
identity on a freshly loaded table: the index keys 0, 1, … are already in
ascending order and the sort is stable. -/
theorem sortRows_eq (tbl : List Row) : sortRows tbl = tbl := by
  unfold sortRows
  have h1 : (tbl.enum.map Prod.fst).Pairwise (· < ·) := by
    rw [List.enum_map_fst]; exact List.pairwise_lt_range tbl.length
  have h2 : tbl.enum.Pairwise (fun a b : Nat × Row => a.1 ≤ b.1) := by
    rw [List.pairwise_map] at h1
    exact h1.imp (fun h => Nat.le_of_lt h)
  rw [List.Sorted.insertionSort_eq h2, List.enum_map_snd]

theorem init_eq_some_iff {fs : FS} {root sp src : String} {tgt : Option String}
    {v : Nat} {data : List Row} :
    ZambeziVoice.init fs root sp src tgt v = some data ↔
      (validArgs sp src tgt v = true ∧ ∃ tbl, fs.tsv (tsvPath root sp) = some tbl ∧
        data = tbl.filter (fun e => fs.probeOk (audioPath root e.audio_id))) := by
  unfold ZambeziVoice.init
  cases hv : validArgs sp src tgt v with
  | false => simp [hv]
  | true =>
      cases ht : fs.tsv (tsvPath root sp) with
      | none => simp [ht]
      | some tbl => simp [ht, sortRows_eq, eq_comm]

theorem mapM_eq_some_map {α β : Type} (f : α → Option β) (g : α → β) :
    ∀ l : List α, (∀ a ∈ l, f a = some (g a)) → l.mapM f = some (l.map g)
  | [] => fun _ => rfl
  | a :: l => fun h => by
      rw [List.mapM_cons, h a (by simp),
        mapM_eq_some_map f g l (fun x hx => h x (by simp [hx]))]
      rfl

theorem mapM_eq_some_forall₂ {α β : Type} (f : α → Option β) :
    ∀ (l : List α) (bs : List β), l.mapM f = some bs →
      List.Forall₂ (fun a b => f a = some b) l bs
  | [], bs => by
      intro h
      rw [List.mapM_nil] at h
      cases h
      exact List.Forall₂.nil
  | a :: l, bs => by
      intro h
      rw [List.mapM_cons] at h
      cases hfa : f a with
      | none => rw [hfa] at h; simp at h
      | some b =>
          rw [hfa] at h
          cases hml : l.mapM f with
          | none => rw [hml] at h; simp at h
          | some bs' =>
              rw [hml] at h
              simp only [Option.bind_some, Option.pure_def] at h
              cases h
              exact List.Forall₂.cons hfa (mapM_eq_some_forall₂ f l bs' hml)

theorem forall₂_map_eq {α β γ : Type} {R : α → β → Prop} (g : β → γ) (h : α → γ)
    (hgh : ∀ a b, R a b → g b = h a) :
    ∀ {l : List α} {bs : List β}, List.Forall₂ R l bs → bs.map g = l.map h := by
  intro l bs hf
  induction hf with
  | nil => rfl
  | cons hr _ ih => simp only [List.map_cons, hgh _ _ hr, ih]

theorem forall₂_mem_left {α β : Type} {R : α → β → Prop} {l : List α} {bs : List β}
    {a : α} (hf : List.Forall₂ R l bs) (ha : a ∈ l) : ∃ b ∈ bs, R a b := by
  induction hf with
  | nil => cases ha
  | cons hr _ ih =>
      rcases List.mem_cons.mp ha with rfl | ha'
      · exact ⟨_, by simp, hr⟩
      · obtain ⟨b, hb, hrb⟩ := ih ha'
        exact ⟨b, by simp [hb], hrb⟩

theorem manifestRowOf_eq_some {zm : ZipManifest} {it : Item} {row : ManifestRow}
    (h : manifestRowOf zm it = some row) :
    row.id = it.sample_id ∧ row.tgt_text = it.sentence ∧ row.speaker = it.speaker_id ∧
      zm.paths it.sample_id = some row.audio ∧
      zm.lengths it.sample_id = some row.n_frames := by
  unfold manifestRowOf at h
  cases hp : zm.paths it.sample_id <;> cases hl : zm.lengths it.sample_id <;>
    rw [hp, hl] at h <;> simp at h
  obtain ⟨rfl⟩ := h
  simp [hp, hl]

theorem manifestOf_maps {zm : ZipManifest} {its : List Item} {m : List ManifestRow}
    (h : manifestOf zm its = some m) :
    m.map ManifestRow.id = its.map Item.sample_id ∧
      m.map ManifestRow.tgt_text = its.map Item.sentence ∧
      m.map ManifestRow.speaker = its.map Item.speaker_id := by
  have hf := mapM_eq_some_forall₂ _ _ _ h
  refine ⟨?_, ?_, ?_⟩
  · exact forall₂_map_eq ManifestRow.id Item.sample_id
      (fun a b hr => (manifestRowOf_eq_some hr).1) hf
  · exact forall₂_map_eq ManifestRow.tgt_text Item.sentence
      (fun a b hr => (manifestRowOf_eq_some hr).2.1) hf
  · exact forall₂_map_eq ManifestRow.speaker Item.speaker_id
      (fun a b hr => (manifestRowOf_eq_some hr).2.2.1) hf

theorem items_map_sample_id (fs : FS) (root : String) (data : List Row) :
    (ZambeziVoice.items fs root data).map Item.sample_id = data.map uttId := by
  simp [ZambeziVoice.items, itemOf, uttId, Function.comp]

set_option maxRecDepth 4000 in
theorem processSplit_eq_some_iff {fs : FS} {root src : String} {tgt : Option String}
    {zm : ZipManifest} {keep : ManifestRow → Bool} {sp : String} {out : SplitOut} :
    processSplit fs root src tgt zm keep sp = some out ↔
      ∃ data m, ZambeziVoice.init fs root sp src tgt 2 = some data ∧
        manifestOf zm (ZambeziVoice.items fs root data) = some m ∧
        out = { split := sp
                manifest := m
                saved := filter_manifest_df keep m (startswith sp "train")
                text_contrib := if startswith sp "train" then m.map ManifestRow.tgt_text else []
                tsv_path := manifestSavePath root sp (task src tgt) } := by
  unfold processSplit
  cases hd : ZambeziVoice.init fs root sp src tgt 2 with
  | none => simp
  | some data =>
      dsimp only
      cases hm : manifestOf zm (ZambeziVoice.items fs root data) with
      | none =>
          dsimp only
          constructor
          · intro h; exact absurd h (by simp)
          · rintro ⟨d, m', hdm, hmm, -⟩
            injection hdm with hd'; subst hd'
            rw [hm] at hmm
            cases hmm
      | some m =>
          dsimp only
          constructor
          · intro h
            injection h with h'
            exact ⟨data, m, rfl, hm, h'.symm⟩
          · rintro ⟨d, m', hdm, hmm, hout⟩
            injection hdm with hd'; subst hd'
            rw [hm] at hmm
            injection hmm with hm'; subst hm'
            rw [hout]

/-! ## Claim theorems -/

/-- C2: for every split table, the constructed dataset's `__len__` is at
most the number of rows of the loaded split table, and it equals that
count exactly when every row's audio file under `<root>/audio/<audio_id>`
probes successfully. -/
theorem dataset_len_le_table_len (fs : FS) (root sp src : String)
    (tgt : Option String) (v : Nat) (tbl : List Row)
    (hargs : validArgs sp src tgt v = true)
    (htsv : fs.tsv (tsvPath root sp) = some tbl) :
    ∃ data, ZambeziVoice.init fs root sp src tgt v = some data ∧
      ZambeziVoice.len data ≤ tbl.length ∧
      (ZambeziVoice.len data = tbl.length ↔
        ∀ r ∈ tbl, fs.probeOk (audioPath root r.audio_id) = true) := by
  refine ⟨tbl.filter (fun e => fs.probeOk (audioPath root e.audio_id)),
    init_eq_some_iff.mpr ⟨hargs, tbl, htsv, rfl⟩, ?_, ?_⟩
  · exact List.length_filter_le _ tbl
  · constructor
    · intro hlen
      have heq := (List.filter_sublist tbl).eq_of_length hlen
      exact fun r hr => List.filter_eq_self.mp heq r hr
    · intro hall
      rw [show ZambeziVoice.len (tbl.filter fun e => fs.probeOk (audioPath root e.audio_id)) =
        (tbl.filter fun e => fs.probeOk (audioPath root e.audio_id)).length from rfl,
        List.filter_eq_self.mpr hall]

/-- Witness for C2 on a concrete filesystem whose second train row fails
the probe: the dataset length is 2 of 3, and the length-equality criterion
evaluates to the (false) all-probeable condition. -/
theorem dataset_len_le_table_len_witness :
    ∃ data, ZambeziVoice.init fsDrop "/data/nya" "train" "nya" none 2 = some data ∧
      ZambeziVoice.len data ≤ tblW.length ∧
      (ZambeziVoice.len data = tblW.length ↔
        ∀ r ∈ tblW, fsDrop.probeOk (audioPath "/data/nya" r.audio_id) = true) :=
  dataset_len_le_table_len fsDrop "/data/nya" "train" "nya" none 2 tblW
    (by decide) (by decide)

/-- C3: a row whose audio probe fails is silently excluded and the
failure is recovered locally: construction completes normally and yields
exactly the probe-surviving rows, in their original table order. -/
theorem probe_failure_drops_row (fs : FS) (root sp src : String)
    (tgt : Option String) (v : Nat) (tbl : List Row)
    (hargs : validArgs sp src tgt v = true)
    (htsv : fs.tsv (tsvPath root sp) = some tbl) :
    ZambeziVoice.init fs root sp src tgt v =
      some (tbl.filter (fun e => fs.probeOk (audioPath root e.audio_id))) :=
  init_eq_some_iff.mpr ⟨hargs, tbl, htsv, rfl⟩

/-- Witness for C3: on `fsDrop` the middle row (unprobeable audio) is
dropped and construction still returns the remaining rows in order. -/
theorem probe_failure_drops_row_witness :
    ZambeziVoice.init fsDrop "/data/nya" "train" "nya" none 2 =
      some [⟨"a.wav", "moni", "spk1"⟩, ⟨"c.wav", "zikomo", "spk3"⟩] :=
  (probe_failure_drops_row fsDrop "/data/nya" "train" "nya" none 2 tblW
    (by decide) (by decide)).trans (by decide)

/-- C1 (counterexample): `.replace(".wav", "")` removes every occurrence
of `".wav"`, not just a trailing extension.  On a split whose two rows
have the distinct `audio_id` values `"a"` and `"a.wav"`, both indexed
accesses return the utterance id `"a"`, so the ids are not pairwise
distinct; and on `".wava.wav"` the result `"a"` differs from `".wava"`,
the value obtained by stripping only the trailing extension. -/
theorem utt_id_collision_counterexample :
    ZambeziVoice.init fsClash "/data/nya" "train" "nya" none 2 = some tblClash ∧
    (ZambeziVoice.getitem fsClash "/data/nya" tblClash 0).map Item.sample_id =
      some "a" ∧
    (ZambeziVoice.getitem fsClash "/data/nya" tblClash 1).map Item.sample_id =
      some "a" ∧
    ("a" : String) ≠ "a.wav" ∧
    stripWavStr ".wava.wav" = "a" ∧ ("a" : String) ≠ ".wava" := by decide

/-- C1 (amended): the utterance id returned by indexed access is
`audio_id.replace(".wav", "")`; provided every `audio_id` of the
constructed dataset has the shape `stem ++ ".wav"` with `".wav"` occurring
nowhere in the stem, this equals the `audio_id` with the trailing
extension removed, and the ids are pairwise distinct whenever the
`audio_id` values are. -/
theorem utt_id_strips_trailing_extension (fs : FS) (root sp src : String)
    (tgt : Option String) (v : Nat) (data : List Row)
    (hinit : ZambeziVoice.init fs root sp src tgt v = some data)
    (hform : ∀ r ∈ data, ∃ stem, ¬ wavPat <:+: stem ∧ r.audio_id.data = stem ++ wavPat) :
    (∀ n r, data[n]? = some r →
      (ZambeziVoice.getitem fs root data n).map Item.sample_id = some (uttId r) ∧
      (uttId r).data ++ wavPat = r.audio_id.data) ∧
    ((data.map Row.audio_id).Nodup → (data.map uttId).Nodup) := by
  have hstem : ∀ r ∈ data, (uttId r).data ++ wavPat = r.audio_id.data := by
    intro r hr
    obtain ⟨stem, hninf, heq⟩ := hform r hr
    show (stripWavStr r.audio_id).data ++ wavPat = r.audio_id.data
    rw [show (stripWavStr r.audio_id).data = stripWav r.audio_id.data from rfl,
      heq, stripWav_append stem hninf]
  constructor
  · intro n r hr
    refine ⟨?_, hstem r (List.getElem?_mem hr)⟩
    simp [ZambeziVoice.getitem, hr, itemOf, uttId]
  · intro hnod
    have hmm : data.map uttId = (data.map Row.audio_id).map stripWavStr := by
      rw [List.map_map]; rfl
    rw [hmm]
    refine List.Nodup.map_on ?_ hnod
    intro x hx y hy hxy
    obtain ⟨rx, hrx, hrx2⟩ := List.mem_map.mp hx
    obtain ⟨ry, hry, hry2⟩ := List.mem_map.mp hy
    have hax : (stripWavStr x).data ++ wavPat = x.data := by
      rw [← hrx2]; exact hstem rx hrx
    have hay : (stripWavStr y).data ++ wavPat = y.data := by
      rw [← hry2]; exact hstem ry hry
    have hxy2 : x.data = y.data := by
      rw [← hax, ← hay, hxy]
    cases x; cases y; exact congrArg String.mk hxy2

/-- Witness for the amended C1 on the concrete table `tblW`, whose stems
`a`, `b`, `c` are `".wav"`-free. -/
theorem utt_id_strips_trailing_extension_witness :
    (∀ n r, tblW[n]? = some r →
      (ZambeziVoice.getitem fsW "/data/nya" tblW n).map Item.sample_id = some (uttId r) ∧
      (uttId r).data ++ wavPat = r.audio_id.data) ∧
    ((tblW.map Row.audio_id).Nodup → (tblW.map uttId).Nodup) :=
  utt_id_strips_trailing_extension fsW "/data/nya" "train" "nya" none 2 tblW
    (by decide)
    (by
      intro r hr
      fin_cases hr
      · exact ⟨['a'], by decide, by decide⟩
      · exact ⟨['b'], by decide, by decide⟩
      · exact ⟨['c'], by decide, by decide⟩)

/-- C4: for every split, the manifest rows are aligned one-to-one, in
order, with the dataset iteration (whose order is the original table-index
order of the surviving rows), and the table handed to persistence is a
sublist of them — hence in the same relative order. -/
theorem manifest_preserves_dataset_order (fs : FS) (root src : String)
    (tgt : Option String) (zm : ZipManifest) (keep : ManifestRow → Bool)
    (sp : String) (out : SplitOut) (data : List Row)
    (hinit : ZambeziVoice.init fs root sp src tgt 2 = some data)
    (hout : processSplit fs root src tgt zm keep sp = some out) :
    out.manifest.map ManifestRow.id = data.map uttId ∧
    List.Sublist out.saved out.manifest := by
  obtain ⟨d, m, hd, hm, rfl⟩ := processSplit_eq_some_iff.mp hout
  rw [hinit] at hd; injection hd with hd'; subst hd'
  constructor
  · show m.map ManifestRow.id = data.map uttId
    rw [(manifestOf_maps hm).1, items_map_sample_id]
  · show List.Sublist (filter_manifest_df keep m (startswith sp "train")) m
    unfold filter_manifest_df
    split
    · exact List.filter_sublist m
    · exact List.Sublist.refl m

/-- Witness for C4 on the concrete train split of `fsW`. -/
theorem manifest_preserves_dataset_order_witness :
    outTrainW.manifest.map ManifestRow.id = tblW.map uttId ∧
    List.Sublist outTrainW.saved outTrainW.manifest :=
  manifest_preserves_dataset_order fsW "/data/nya" "nya" none zmW (fun _ => true)
    "train" outTrainW tblW (by decide) (by decide)

/-- C5: with `--tgt-lang` omitted the run is in no-translation mode: the
task identifier is `asr_<src>` (with a target it is `st_<src>_<tgt>`),
every manifest row's `tgt_text` is the row's source-language sentence
verbatim, and the persisted manifest filename embeds the `asr_<src>`
task. -/
theorem no_translation_mode (fs : FS) (root src t sp : String)
    (zm : ZipManifest) (keep : ManifestRow → Bool) (out : SplitOut)
    (data : List Row) :
    task src none = "asr_" ++ src ∧
    task src (some t) = "st_" ++ src ++ "_" ++ t ∧
    (processSplit fs root src none zm keep sp = some out →
      ZambeziVoice.init fs root sp src none 2 = some data →
      out.manifest.map ManifestRow.tgt_text = data.map Row.sentence ∧
      out.tsv_path = manifestSavePath root sp ("asr_" ++ src)) := by
  refine ⟨rfl, rfl, fun hout hinit => ?_⟩
  obtain ⟨d, m, hd, hm, rfl⟩ := processSplit_eq_some_iff.mp hout
  rw [hinit] at hd; injection hd with hd'; subst hd'
  constructor
  · show m.map ManifestRow.tgt_text = data.map Row.sentence
    rw [(manifestOf_maps hm).2.1]
    simp [ZambeziVoice.items, itemOf, Function.comp]
  · rfl

/-- Witness for C5 on the concrete train split of `fsW`: transcripts are
the source sentences and the save path carries `asr_nya`. -/
theorem no_translation_mode_witness :
    task "nya" none = "asr_nya" ∧
    outTrainW.manifest.map ManifestRow.tgt_text = ["moni", "bwanji", "zikomo"] ∧
    outTrainW.tsv_path = manifestSavePath "/data/nya" "train" ("asr_" ++ "nya") := by
  have h := no_translation_mode fsW "/data/nya" "nya" "fr" "train" zmW
    (fun _ => true) outTrainW tblW
  have h3 := h.2.2 (by decide) (by decide)
  exact ⟨h.1.trans (by decide), h3.1.trans (by decide), h3.2⟩

/-- C7: with `--vocab-type char` the size string is empty, so the
vocabulary-model filename prefix is `spm_char_<task>` with no numeric
size suffix, for every `--vocab-size`; for `bpe` and `unigram` the prefix
embeds the decimal vocabulary size. -/
theorem char_vocab_no_size_suffix (n m : Int) (t : String) :
    vocab_size_str "char" n = "" ∧
    spm_filename_base "char" n t = spm_filename_base "char" m t ∧
    spm_filename_base "char" n t = "spm_char_" ++ t ∧
    spm_filename_base "bpe" n t = "spm_bpe" ++ toString n ++ "_" ++ t ∧
    spm_filename_base "unigram" n t = "spm_unigram" ++ toString n ++ "_" ++ t := by
  refine ⟨rfl, rfl, ?_, ?_, ?_⟩
  · show "spm_" ++ "char" ++ "" ++ "_" ++ t = "spm_char_" ++ t
    congr 1
  · show "spm_" ++ "bpe" ++ toString n ++ "_" ++ t = "spm_bpe" ++ toString n ++ "_" ++ t
    congr 2
  · show "spm_" ++ "unigram" ++ toString n ++ "_" ++ t =
      "spm_unigram" ++ toString n ++ "_" ++ t
    congr 2

/-- C8: invalid configuration makes `ZambeziVoice.__init__` fail its
precondition `assert`s before any row is loaded (the result is `none` for
every filesystem): an unsupported version or split is rejected, and when a
target language is supplied a successful construction forces `"en"` to be
one of the two languages and the non-English language to lie in the
allowed table for the version. -/
theorem invalid_config_rejected (fs : FS) (root sp src t : String)
    (tgt : Option String) (v : Nat) :
    (validArgs sp src tgt v = false → ZambeziVoice.init fs root sp src tgt v = none) ∧
    (VERSIONS.contains v = false ∨ SPLITS.contains sp = false →
      ZambeziVoice.init fs root sp src tgt v = none) ∧
    (ZambeziVoice.init fs root sp src (some t) v ≠ none →
      VERSIONS.contains v = true ∧ SPLITS.contains sp = true ∧
      ("en" = src ∨ "en" = t) ∧
      (src = "en" → (EN_XX_LANGUAGES v).contains t = true) ∧
      (src ≠ "en" → (XX_EN_LANGUAGES v).contains src = true)) := by
  have habort : validArgs sp src tgt v = false →
      ZambeziVoice.init fs root sp src tgt v = none := by
    intro h
    unfold ZambeziVoice.init
    rw [h]
    rfl
  refine ⟨habort, ?_, ?_⟩
  · intro h
    refine habort ?_
    unfold validArgs
    rcases h with h | h <;> rw [h] <;> simp
  · intro hne
    have hv : validArgs sp src (some t) v = true := by
      cases hb : validArgs sp src (some t) v
      · exact absurd (by
          unfold ZambeziVoice.init
          rw [hb]
          rfl) hne
      · rfl
    unfold validArgs at hv
    simp only [Bool.and_eq_true, Bool.or_eq_true, beq_iff_eq] at hv
    obtain ⟨⟨hver, hsp⟩, hen, hrest⟩ := hv
    refine ⟨hver, hsp, hen, ?_, ?_⟩
    · intro hsrc
      rw [if_pos hsrc] at hrest
      exact hrest
    · intro hsrc
      rw [if_neg hsrc] at hrest
      exact hrest

/-- Witness for C8: a non-English language pair is rejected, version 1 is
rejected, and a successful `nya → en` construction certifies the language
side conditions. -/
theorem invalid_config_rejected_witness :
    ZambeziVoice.init fsW "/data/nya" "train" "nya" (some "fr") 2 = none ∧
    ZambeziVoice.init fsW "/data/nya" "train" "nya" none 1 = none ∧
    (("en" = "nya" ∨ ("en" : String) = "en") ∧
      (("nya" : String) ≠ "en" → (XX_EN_LANGUAGES 2).contains "nya" = true)) := by
  refine ⟨?_, ?_, ?_⟩
  · exact (invalid_config_rejected fsW "/data/nya" "train" "nya" "fr"
      (some "fr") 2).1 (by decide)
  · exact (invalid_config_rejected fsW "/data/nya" "train" "nya" "fr"
      none 1).2.1 (Or.inl (by decide))
  · have h := (invalid_config_rejected fsW "/data/nya" "train" "nya" "en"
      (some "en") 2).2.2 (by decide)
    exact ⟨h.2.2.1, h.2.2.2.2⟩

/-- C9: `train_text` is extended with the train manifest's transcripts
before `filter_manifest_df` runs: the contribution equals the transcript
of every probeable train row, every manifest row's transcript is in it
(even rows the filter drops), and it does not depend on the filter's
acceptance predicate. -/
theorem train_text_accumulated_before_filter (fs : FS) (root src : String)
    (tgt : Option String) (zm : ZipManifest) (keep : ManifestRow → Bool)
    (out : SplitOut) (data : List Row)
    (hinit : ZambeziVoice.init fs root "train" src tgt 2 = some data)
    (hout : processSplit fs root src tgt zm keep "train" = some out) :
    out.text_contrib = data.map Row.sentence ∧
    (∀ row ∈ out.manifest, row.tgt_text ∈ out.text_contrib) ∧
    (∀ (keep' : ManifestRow → Bool) (out' : SplitOut),
      processSplit fs root src tgt zm keep' "train" = some out' →
      out'.text_contrib = out.text_contrib) := by
  obtain ⟨d, m, hd, hm, rfl⟩ := processSplit_eq_some_iff.mp hout
  rw [hinit] at hd; injection hd with hd'; subst hd'
  have htr : startswith "train" "train" = true := by decide
  refine ⟨?_, ?_, ?_⟩
  · show (if startswith "train" "train" then m.map ManifestRow.tgt_text else []) =
      data.map Row.sentence
    rw [if_pos htr, (manifestOf_maps hm).2.1]
    simp [ZambeziVoice.items, itemOf, Function.comp]
  · intro row hrow
    show row.tgt_text ∈ (if startswith "train" "train" then m.map ManifestRow.tgt_text else [])
    rw [if_pos htr]
    exact List.mem_map_of_mem ManifestRow.tgt_text hrow
  · intro keep' out' hout'
    obtain ⟨d2, m2, hd2, hm2, rfl⟩ := processSplit_eq_some_iff.mp hout'
    rw [hinit] at hd2; injection hd2 with h2; subst h2
    rw [hm] at hm2; injection hm2 with h3; subst h3
    rfl

/-- Witness for C9 on the concrete train split of `fsW` with an
all-rejecting filter: the transcripts still all reach `train_text`. -/
theorem train_text_accumulated_before_filter_witness :
    (outTrainW.text_contrib = tblW.map Row.sentence ∧
      (∀ row ∈ outTrainW.manifest, row.tgt_text ∈ outTrainW.text_contrib) ∧
      (∀ (keep' : ManifestRow → Bool) (out' : SplitOut),
        processSplit fsW "/data/nya" "nya" none zmW keep' "train" = some out' →
        out'.text_contrib = outTrainW.text_contrib)) ∧
    processSplit fsW "/data/nya" "nya" none zmW (fun _ => false) "train" =
      some { outTrainW with saved := [] } := by
  constructor
  · exact train_text_accumulated_before_filter fsW "/data/nya" "nya" none zmW
      (fun _ => true) outTrainW tblW (by decide) (by decide)
  · decide

/-- C10: dataset construction is a function of the split table and the
per-row probe outcomes only: two filesystems agreeing on those yield
identical row sequences, and hence identical utterance-id enumerations —
in particular the feature-extraction pass and the manifest-building pass,
which construct the dataset independently, see the same ids in the same
order. -/
theorem init_deterministic (fs1 fs2 : FS) (root sp src : String)
    (tgt : Option String) (v : Nat) (tbl : List Row)
    (ht1 : fs1.tsv (tsvPath root sp) = some tbl)
    (ht2 : fs2.tsv (tsvPath root sp) = some tbl)
    (hp : ∀ r ∈ tbl, fs1.probeOk (audioPath root r.audio_id) =
        fs2.probeOk (audioPath root r.audio_id)) :
    ZambeziVoice.init fs1 root sp src tgt v = ZambeziVoice.init fs2 root sp src tgt v ∧
    (∀ d1 d2, ZambeziVoice.init fs1 root sp src tgt v = some d1 →
      ZambeziVoice.init fs2 root sp src tgt v = some d2 →
      (ZambeziVoice.items fs1 root d1).map Item.sample_id =
        (ZambeziVoice.items fs2 root d2).map Item.sample_id) := by
  have heq : ZambeziVoice.init fs1 root sp src tgt v =
      ZambeziVoice.init fs2 root sp src tgt v := by
    unfold ZambeziVoice.init
    cases hv : validArgs sp src tgt v
    · simp
    · rw [ht1, ht2]
      dsimp only
      simp only [sortRows_eq, List.filter_congr hp]
  refine ⟨heq, fun d1 d2 h1 h2 => ?_⟩
  rw [heq, h2] at h1
  injection h1 with h1'
  subst h1'
  rw [items_map_sample_id, items_map_sample_id]

/-- Witness for C10: `fsW` and `fsW2` differ in audio contents but agree
on tables and probes, so both constructions coincide. -/
theorem init_deterministic_witness :
    ZambeziVoice.init fsW "/data/nya" "train" "nya" none 2 =
      ZambeziVoice.init fsW2 "/data/nya" "train" "nya" none 2 ∧
    (∀ d1 d2, ZambeziVoice.init fsW "/data/nya" "train" "nya" none 2 = some d1 →
      ZambeziVoice.init fsW2 "/data/nya" "train" "nya" none 2 = some d2 →
      (ZambeziVoice.items fsW "/data/nya" d1).map Item.sample_id =
        (ZambeziVoice.items fsW2 "/data/nya" d2).map Item.sample_id) :=
  init_deterministic fsW fsW2 "/data/nya" "train" "nya" none 2 tblW
    (by decide) (by decide) (by decide)

/-- C6: round-trip between archive and manifests: when the
feature-extraction pass staged the ids `ids`, every split's manifest loop
completes (both dictionary lookups succeed for every utterance id), and
the archive manifest holds a feature entry for every id appearing in a
produced manifest. -/
theorem manifest_archive_round_trip (fs : FS) (root src : String)
    (tgt : Option String) (zi : ZipInfo) (keep : ManifestRow → Bool)
    (ids : List String)
    (hids : featureIds fs root src tgt = some ids) :
    ∀ sp ∈ SPLITS, ∃ out,
      processSplit fs root src tgt (zipManifestOf zi ids) keep sp = some out ∧
      ∀ row ∈ out.manifest,
        (zipManifestOf zi ids).paths row.id = some (zi.pointerOf row.id) ∧
        (zipManifestOf zi ids).lengths row.id = some (zi.framesOf row.id) ∧
        row.id ∈ ids := by
  unfold featureIds at hids
  cases hmapM : SPLITS.mapM (fun sp => ZambeziVoice.init fs root sp src tgt 2) with
  | none => rw [hmapM] at hids; cases hids
  | some dss =>
      rw [hmapM] at hids
      injection hids with hids'
      have hf := mapM_eq_some_forall₂ _ SPLITS dss hmapM
      intro sp hsp
      obtain ⟨rows, hrows_mem, hrows⟩ := forall₂_mem_left hf hsp
      have hsub : ∀ u ∈ rows.map uttId, u ∈ ids := by
        intro u hu
        rw [← hids']
        exact List.mem_flatten.mpr
          ⟨rows.map uttId, List.mem_map_of_mem (fun r => r.map uttId) hrows_mem, hu⟩
      have hmemid : ∀ it ∈ ZambeziVoice.items fs root rows, it.sample_id ∈ ids := by
        intro it hit
        refine hsub it.sample_id ?_
        rw [← items_map_sample_id fs root rows]
        exact List.mem_map_of_mem Item.sample_id hit
      have hcontains : ∀ it ∈ ZambeziVoice.items fs root rows,
          ids.contains it.sample_id = true := by
        intro it hit
        simpa [List.elem_iff] using hmemid it hit
      have hall : ∀ it ∈ ZambeziVoice.items fs root rows,
          manifestRowOf (zipManifestOf zi ids) it =
            some ⟨it.sample_id, zi.pointerOf it.sample_id, zi.framesOf it.sample_id,
                  it.sentence, it.speaker_id⟩ := by
        intro it hit
        unfold manifestRowOf zipManifestOf
        dsimp only
        rw [if_pos (hcontains it hit), if_pos (hcontains it hit)]
      have hm := mapM_eq_some_map _ _ (ZambeziVoice.items fs root rows) hall
      refine ⟨_, processSplit_eq_some_iff.mpr ⟨rows, _, hrows, hm, rfl⟩, ?_⟩
      intro row hrow
      obtain ⟨it, hit, hrowit⟩ := List.mem_map.mp hrow
      have hid : row.id = it.sample_id := by rw [← hrowit]
      have hc : ids.contains row.id = true := by rw [hid]; exact hcontains it hit
      refine ⟨?_, ?_, by simpa [List.elem_iff] using hc⟩
      · show (if ids.contains row.id then some (zi.pointerOf row.id) else none) =
          some (zi.pointerOf row.id)
        rw [if_pos hc]
      · show (if ids.contains row.id then some (zi.framesOf row.id) else none) =
          some (zi.framesOf row.id)
        rw [if_pos hc]

/-- Witness for C6 on `fsW`, instantiated at the dev split. -/
theorem manifest_archive_round_trip_witness :
    ∃ out, processSplit fsW "/data/nya" "nya" none
        (zipManifestOf ziW ["a", "b", "c", "d"]) (fun _ => true) "dev" = some out ∧
      ∀ row ∈ out.manifest,
        (zipManifestOf ziW ["a", "b", "c", "d"]).paths row.id =
          some (ziW.pointerOf row.id) ∧
        (zipManifestOf ziW ["a", "b", "c", "d"]).lengths row.id =
          some (ziW.framesOf row.id) ∧
        row.id ∈ ["a", "b", "c", "d"] :=
  manifest_archive_round_trip fsW "/data/nya" "nya" none ziW (fun _ => true)
    ["a", "b", "c", "d"] (by decide) "dev" (by decide)
